import Mathlib

/-!
Verification of the scrape/parse/resolve core of `ippdu.py`, a command-line
utility controlling 0816-series Smart PDUs.

The embedding models, at the level of the parsed documents, the functions
`fetch` (its URL construction), `parse_names`, `parse_status`,
`list_outlets`, `set_outlet` (its query-string construction) and
`resolve_outlet` of `src/ippdu.py`.  Python strings are modelled as Lean
strings restricted to their ASCII behaviour; Python dicts are modelled as
association lists with the insertion-order update semantics of CPython;
Python exceptions are modelled by `Except` with an error kind per Python
exception class.  Fallible library calls (`int(...)`, attribute access on
`None`, indexing an empty result list, `ET.fromstring`) are modelled
explicitly.
-/

namespace Ippdu

/-- Error kinds corresponding to the Python exceptions that can escape the
parsing helpers: `xml.etree.ElementTree.ParseError` from `ET.fromstring`,
`ValueError` from `int(...)`, `AttributeError` from attribute access on
`None`, and `IndexError` from indexing an empty list. -/
inductive PyError where
  | parseError
  | valueError
  | attributeError
  | indexError
deriving DecidableEq, Repr

/-- Models Python `str.lower()` on ASCII strings (`Char.toLower` lower-cases
exactly the ASCII capitals). -/
def pyLower (s : String) : String :=
  String.mk (s.data.map Char.toLower)

/-- Models Python `str.upper()` on ASCII strings. -/
def pyUpper (s : String) : String :=
  String.mk (s.data.map Char.toUpper)

/-- Whitespace-stripping of a character list at both ends, modelling Python
`str.strip()` on ASCII strings. -/
def stripWS (l : List Char) : List Char :=
  ((l.dropWhile Char.isWhitespace).reverse.dropWhile Char.isWhitespace).reverse

/-- Models Python `str.strip()` on ASCII strings. -/
def pyStrip (s : String) : String :=
  String.mk (stripWS s.data)

/-- Models Python `str.isdigit()` on ASCII strings: nonempty and made of
decimal digits only. -/
def pyIsdigit (s : String) : Bool :=
  !s.data.isEmpty && s.data.all Char.isDigit

/-- Numeric value of a list of decimal digits (most significant first). -/
def digitsToNat (ds : List Char) : Nat :=
  ds.foldl (fun a c => a * 10 + (c.toNat - 48)) 0

/-- Models Python `int(s)` on a string that satisfies `s.isdigit()`. -/
def int_of_digits (s : String) : Int :=
  Int.ofNat (digitsToNat s.data)

/-- Models Python `str.startswith(pre)`. -/
def pyStartswith (s pre : String) : Bool :=
  s.data.take pre.data.length == pre.data

/-- Digit tail of a Python integer literal: digits, optionally separated by
single underscores, accumulated onto `acc`.  Returns `none` where Python
`int(...)` raises `ValueError`. -/
def pyIntTail : List Char → Nat → Option Nat
  | [], acc => some acc
  | c :: cs, acc =>
    if c == '_' then
      match cs with
      | [] => none
      | d :: ds => if d.isDigit then pyIntTail ds (acc * 10 + (d.toNat - 48)) else none
    else if c.isDigit then pyIntTail cs (acc * 10 + (c.toNat - 48)) else none

/-- Unsigned part of a Python integer literal: at least one digit, then
`pyIntTail`. -/
def pyIntUnsigned : List Char → Option Nat
  | [] => none
  | c :: cs => if c.isDigit then pyIntTail cs (c.toNat - 48) else none

/-- Models Python `int(s)` for base 10: surrounding whitespace stripped,
optional sign, then digits (with underscore separators allowed between
digits).  `none` models `ValueError`. -/
def pyInt (s : String) : Option Int :=
  match stripWS s.data with
  | '+' :: rest => (pyIntUnsigned rest).map Int.ofNat
  | '-' :: rest => (pyIntUnsigned rest).map (fun n => -(Int.ofNat n : Int))
  | rest => (pyIntUnsigned rest).map Int.ofNat

/-- The character list of the literal `"outletStat"` (length 10). -/
def statChars : List Char := "outletStat".data

/-- Fuel-driven worker for `removeStatStr`: replaces every occurrence of
`"outletStat"` by the empty string, scanning left to right, exactly as
Python `str.replace("outletStat", "")` does.  The fuel is structural only;
one unit is consumed per examined character, so `l.length` units always
suffice. -/
def removeStatFuel : Nat → List Char → List Char
  | 0, l => l
  | _ + 1, [] => []
  | fuel + 1, c :: cs =>
    if (c :: cs).take 10 == statChars then removeStatFuel fuel ((c :: cs).drop 10)
    else c :: removeStatFuel fuel cs

/-- Models `s.replace("outletStat", "")` from line 99 of `ippdu.py`: every
occurrence of the substring is removed, not only a leading one. -/
def removeStatStr (s : String) : String :=
  String.mk (removeStatFuel s.data.length s.data)

/-- Python-dict insertion `d[k] = v` for an association list whose keys are
unique: an existing key keeps its position and gets the new value, a new key
is appended at the end (CPython dicts preserve insertion order). -/
def dictInsert : List (Int × String) → Int → String → List (Int × String)
  | [], k, v => [(k, v)]
  | p :: ps, k, v => if p.1 == k then (k, v) :: ps else p :: dictInsert ps k v

/-- Python-dict lookup `d.get(k)`: the value at the first (only) occurrence
of the key. -/
def dictLookup : List (Int × String) → Int → Option String
  | [], _ => none
  | p :: ps, k => if p.1 == k then some p.2 else dictLookup ps k

/-- The key list of an association-list dict, in insertion order. -/
def dictKeys : List (Int × String) → List Int
  | [] => []
  | p :: ps => p.1 :: dictKeys ps

/-- A Python `for` loop over `l` that builds up a dict `acc`, where the body
of the loop is described by the classifier `f`: each iteration either raises
(`.error`, aborting the loop with that exception), skips (`.ok none`), or
performs one dict assignment (`.ok (some (k, v))`). -/
def runDict (f : α → Except PyError (Option (Int × String)))
    (acc : List (Int × String)) : List α → Except PyError (List (Int × String))
  | [] => .ok acc
  | x :: xs =>
    match f x with
    | .error e => .error e
    | .ok none => runDict f acc xs
    | .ok (some kv) => runDict f (dictInsert acc kv.1 kv.2) xs

/-- The key contributed by one loop iteration, if any. -/
def contribKey (f : α → Except PyError (Option (Int × String))) (x : α) : Option Int :=
  match f x with
  | .ok (some kv) => some kv.1
  | _ => none

/-- A top-level child element of the status document as seen through
`xml.etree.ElementTree`: its tag and its `.text` attribute, which is `None`
(here `none`) for an empty or self-closing element. -/
structure XElem where
  tag : String
  text : Option String
deriving DecidableEq, Repr

/-- Loop body of `parse_status` (lines 97-100 of `ippdu.py`) for one child
element: skip elements whose tag does not start with `"outletStat"`;
otherwise the key is `int(elem.tag.replace("outletStat", ""))` — a
`ValueError` if the remainder is not an integer literal — and the value is
`elem.text.strip().upper()` — an `AttributeError` if `elem.text` is `None`. -/
def classifyStatus (e : XElem) : Except PyError (Option (Int × String)) :=
  if pyStartswith e.tag "outletStat" then
    match pyInt (removeStatStr e.tag) with
    | none => .error .valueError
    | some num =>
      match e.text with
      | none => .error .attributeError
      | some t => .ok (some (num, pyUpper (pyStrip t)))
  else .ok none

/-- Models `parse_status` (lines 91-102 of `ippdu.py`).  The argument is the
outcome of `ET.fromstring(xml_text)`: `.error .parseError` when the document
is not well-formed XML (the exception propagates), otherwise the list of
top-level child elements of the root.  Returns the states dict or the first
exception raised by the loop. -/
def parse_status (src : Except PyError (List XElem)) :
    Except PyError (List (Int × String)) :=
  match src with
  | .error e => .error e
  | .ok children => runDict classifyStatus [] children

mutual
/-- A node of the HTML tree produced by `BeautifulSoup(html, "html.parser")`:
an element with tag, attributes and children, or a text node. -/
inductive HNode where
  | elem (tag : String) (attrs : List (String × String)) (children : HForest)
  | text (s : String)
/-- A sibling list of HTML nodes (a separate inductive so that all tree
recursions are structural). -/
inductive HForest where
  | nil
  | cons (n : HNode) (rest : HForest)
end

/-- Whether a node is an element with the given tag. -/
def tagIs (tg : String) : HNode → Bool
  | HNode.elem t _ _ => t == tg
  | HNode.text _ => false

/-- Models BeautifulSoup attribute access `node.get(key)`: the value of the
attribute, or `none` when absent (text nodes carry no attributes). -/
def attrGet (n : HNode) (key : String) : Option String :=
  match n with
  | HNode.elem _ attrs _ => (attrs.find? (fun p => p.1 == key)).map (fun p => p.2)
  | HNode.text _ => none

/-- The children of a node (text nodes have none). -/
def childrenOf : HNode → HForest
  | HNode.elem _ _ cs => cs
  | HNode.text _ => HForest.nil

mutual
/-- All element nodes of a subtree in document (pre-)order: the node itself
when it is an element, followed by its descendant elements. -/
def descN : HNode → List HNode
  | HNode.text _ => []
  | HNode.elem t a cs => HNode.elem t a cs :: descF cs
/-- All element nodes of a forest in document order. -/
def descF : HForest → List HNode
  | HForest.nil => []
  | HForest.cons n rest => descN n ++ descF rest
end

/-- Models BeautifulSoup `node.find_all(tag)`: every descendant element of
the node (the node itself excluded) carrying the given tag, in document
order. -/
def find_all_tag (n : HNode) (tg : String) : List HNode :=
  (descF (childrenOf n)).filter (tagIs tg)

mutual
/-- All strings of a subtree in document order (BeautifulSoup
`_all_strings`). -/
def textsN : HNode → List String
  | HNode.text s => [s]
  | HNode.elem _ _ cs => textsF cs
/-- All strings of a forest in document order. -/
def textsF : HForest → List String
  | HForest.nil => []
  | HForest.cons n rest => textsN n ++ textsF rest
end

/-- Models BeautifulSoup `node.get_text(strip=True)`: the concatenation of
every string of the subtree, each stripped of surrounding whitespace. -/
def get_text_strip (n : HNode) : String :=
  String.join ((textsN n).map pyStrip)

mutual
/-- Every element of a subtree, in document order, paired with its ancestor
chain (nearest ancestor first).  `anc` is the chain of the node itself. -/
def elemsN (anc : List HNode) : HNode → List (HNode × List HNode)
  | HNode.text _ => []
  | HNode.elem t a cs =>
      (HNode.elem t a cs, anc) :: elemsF (HNode.elem t a cs :: anc) cs
/-- Every element of a forest, in document order, paired with its ancestor
chain. -/
def elemsF (anc : List HNode) : HForest → List (HNode × List HNode)
  | HForest.nil => []
  | HForest.cons n rest => elemsN anc n ++ elemsF anc rest
end

/-- Models `soup.find_all("input", {"type": "checkbox"})` on a document
given as the forest of top-level nodes: every `input` element whose `type`
attribute equals `"checkbox"`, in document order, each paired with its
ancestor chain (used below for `find_parent`). -/
def checkboxes (doc : HForest) : List (HNode × List HNode) :=
  (elemsF [] doc).filter
    (fun p => tagIs "input" p.1 && attrGet p.1 "type" == some "checkbox")

/-- Models `_RX_CHECKBOX.fullmatch(name)` followed by `int(match.group(1))`
(lines 68 and 81-84 of `ippdu.py`): the whole attribute value must be
`"outlet"` followed by one or more decimal digits, and the extracted number
is the value of those digits. -/
def match_outlet_name (name : String) : Option Int :=
  if name.data.take 6 == "outlet".data
      && !(name.data.drop 6).isEmpty
      && (name.data.drop 6).all Char.isDigit
  then some (Int.ofNat (digitsToNat (name.data.drop 6)))
  else none

/-- Loop body of `parse_names` (lines 80-86 of `ippdu.py`) for one checkbox
(given with its ancestor chain): checkboxes whose `name` attribute (default
`""`) does not full-match `outlet<digits>` are skipped; otherwise
`cb.find_parent("tr")` is the nearest `tr` ancestor — when there is none it
is `None` and the subsequent `find_all` raises an `AttributeError` — and the
stored value is `tr.find_all("td")[0].get_text(strip=True)`, an `IndexError`
when the row contains no `td`. -/
def classifyName (p : HNode × List HNode) : Except PyError (Option (Int × String)) :=
  match match_outlet_name ((attrGet p.1 "name").getD "") with
  | none => .ok none
  | some num =>
    match p.2.find? (tagIs "tr") with
    | none => .error .attributeError
    | some tr =>
      match find_all_tag tr "td" with
      | [] => .error .indexError
      | td :: _ => .ok (some (num, get_text_strip td))

/-- Models `parse_names` (lines 71-88 of `ippdu.py`) on the parsed document:
returns the names dict, or the first exception raised by the loop body. -/
def parse_names (doc : HForest) : Except PyError (List (Int × String)) :=
  runDict classifyName [] (checkboxes doc)

/-- Models the URL construction of `fetch` (line 63 of `ippdu.py`):
`f"{base_url}/{path.lstrip('/')}"` — `lstrip('/')` removes every leading
slash from `path`. -/
def fetch_url (base_url path : String) : String :=
  base_url ++ "/" ++ String.mk (path.data.dropWhile (fun c => c == '/'))

/-- Models the combination step of `list_outlets` (line 113 of `ippdu.py`):
one record per key of the names dict, keys in ascending order
(`sorted(names)`), name `names[n]` (always present) and state
`stats.get(n, "(unknown)")`. -/
def list_outlets (names stats : List (Int × String)) : List (Int × String × String) :=
  (List.insertionSort (fun a b => a ≤ b) (dictKeys names)).map
    (fun n => (n, (dictLookup names n).getD "", (dictLookup stats n).getD "(unknown)"))

/-- Enumeration of outlet operations with their firmware wire codes, from
lines 48-52 of `ippdu.py`: `ON = "0"`, `OFF = "1"`. -/
inductive OutletOperation where
  | ON
  | OFF
deriving DecidableEq, Repr

/-- The wire-code string of an operation (the Python enum value). -/
def OutletOperation.value : OutletOperation → String
  | .ON => "0"
  | .OFF => "1"

/-- Models the query string built by `set_outlet` (line 130 of `ippdu.py`):
`f"outlet{outlet}=1&op={op.value}&submit=Apply"`. -/
def set_outlet_query (outlet : Int) (op : OutletOperation) : String :=
  "outlet" ++ toString outlet ++ "=1&op=" ++ op.value ++ "&submit=Apply"

/-- The failure modes of `resolve_outlet`, which the source reports as
`ValueError`s with distinct messages: unknown outlet number, unknown outlet
name, and a name matching several outlets (the message lists the matching
numbers). -/
inductive ResolveError where
  | unknownNumber (num : Int)
  | unknownName (name : String)
  | ambiguous (name : String) (numbers : List Int)
deriving DecidableEq, Repr

/-- Models `resolve_outlet` (lines 149-167 of `ippdu.py`).  A token made of
digits only is parsed as a number and looked up among the record numbers;
any other token is compared case-insensitively against every record name,
and the outcome depends on the number of matches exactly as in the source
(`matches` is in table order). -/
def resolve_outlet (arg : String) (table : List (Int × String × String)) :
    Except ResolveError Int :=
  if pyIsdigit arg then
    let num := int_of_digits arg
    if table.any (fun r => r.1 == num) then .ok num
    else .error (.unknownNumber num)
  else
    match (table.filter (fun r => pyLower r.2.1 == pyLower arg)).map (fun r => r.1) with
    | [m] => .ok m
    | [] => .error (.unknownName arg)
    | m :: ms => .error (.ambiguous arg (m :: ms))

/-- Whether an ancestor chain contains a nearest `tr` whose subtree holds at
least one `td` — the precondition under which the loop body of `parse_names`
cannot raise. -/
def hasTrWithTd (anc : List HNode) : Bool :=
  match anc.find? (tagIs "tr") with
  | none => false
  | some tr => !(find_all_tag tr "td").isEmpty

/-- A table row with one name cell and one outlet checkbox, as found on
`control_outlet.htm` (used for concrete instantiations). -/
def row (nm cbName : String) : HNode :=
  HNode.elem "tr" []
    (HForest.cons (HNode.elem "td" [] (HForest.cons (HNode.text nm) HForest.nil))
      (HForest.cons
        (HNode.elem "input" [("type", "checkbox"), ("name", cbName)] HForest.nil)
        HForest.nil))

/-- A two-row outlet page listing outlet 2 before outlet 1 (used for
concrete instantiations). -/
def namesDocC3 : HForest :=
  HForest.cons (row "B" "outlet2") (HForest.cons (row "A" "outlet1") HForest.nil)

/-- An outlet page with one outlet row and a select-all checkbox (used for
concrete instantiations). -/
def namesDocC4 : HForest :=
  HForest.cons (row "Server Rack" "outlet0")
    (HForest.cons
      (HNode.elem "input" [("type", "checkbox"), ("name", "outlet_check_all")] HForest.nil)
      HForest.nil)

/-! Association-list dict lemmas. -/

theorem dictLookup_nil (k : Int) : dictLookup [] k = none := rfl

theorem dictLookup_insert_self (d : List (Int × String)) (k : Int) (v : String) :
    dictLookup (dictInsert d k v) k = some v := by
  induction d with
  | nil => simp [dictInsert, dictLookup]
  | cons p ps ih =>
    by_cases h : p.1 = k
    · simp [dictInsert, dictLookup, h]
    · simp [dictInsert, dictLookup, h, ih]

theorem dictLookup_insert_ne (d : List (Int × String)) (k : Int) (v : String)
    (a : Int) (h : a ≠ k) : dictLookup (dictInsert d k v) a = dictLookup d a := by
  induction d with
  | nil => simp [dictInsert, dictLookup, Ne.symm h]
  | cons p ps ih =>
    by_cases hp : p.1 = k
    · simp [dictInsert, dictLookup, hp, Ne.symm h]
    · have hstep : dictInsert (p :: ps) k v = p :: dictInsert ps k v := by
        simp [dictInsert, hp]
      rw [hstep]
      by_cases ha : p.1 = a
      · simp [dictLookup, ha]
      · simp [dictLookup, ha, ih]

theorem dictLookup_isSome_insert (d : List (Int × String)) (k : Int) (v : String)
    (a : Int) :
    (dictLookup (dictInsert d k v) a).isSome = true ↔
      a = k ∨ (dictLookup d a).isSome = true := by
  by_cases h : a = k
  · subst h
    simp [dictLookup_insert_self]
  · rw [dictLookup_insert_ne d k v a h]
    simp [h]

theorem mem_dictKeys_insert (d : List (Int × String)) (k : Int) (v : String)
    (a : Int) (h : a ∈ dictKeys (dictInsert d k v)) : a = k ∨ a ∈ dictKeys d := by
  induction d with
  | nil => simpa [dictInsert, dictKeys] using h
  | cons p ps ih =>
    by_cases hp : p.1 = k
    · simp only [dictInsert, beq_iff_eq, hp, if_true] at h
      simpa [dictKeys, hp] using h
    · simp only [dictInsert, beq_iff_eq, hp, if_false] at h
      rcases (by simpa [dictKeys] using h : a = p.1 ∨ a ∈ dictKeys (dictInsert ps k v)) with
        h1 | h2
      · exact Or.inr (by simp [dictKeys, h1])
      · rcases ih h2 with h3 | h4
        · exact Or.inl h3
        · exact Or.inr (by simp [dictKeys, h4])

theorem dictKeys_nodup_insert (d : List (Int × String)) (k : Int) (v : String)
    (h : (dictKeys d).Nodup) : (dictKeys (dictInsert d k v)).Nodup := by
  induction d with
  | nil => simp [dictInsert, dictKeys]
  | cons p ps ih =>
    rcases (by simpa [dictKeys] using h : p.1 ∉ dictKeys ps ∧ (dictKeys ps).Nodup) with
      ⟨hnm, hnd⟩
    by_cases hp : p.1 = k
    · simp only [dictInsert, beq_iff_eq, hp, if_true]
      have hk : k ∉ dictKeys ps := by rw [← hp]; exact hnm
      have : (k :: dictKeys ps).Nodup := List.nodup_cons.mpr ⟨hk, hnd⟩
      simpa [dictKeys] using this
    · simp only [dictInsert, beq_iff_eq, hp, if_false]
      have hnotin : p.1 ∉ dictKeys (dictInsert ps k v) := by
        intro hmem
        rcases mem_dictKeys_insert ps k v p.1 hmem with h1 | h2
        · exact hp h1
        · exact hnm h2
      have : (p.1 :: dictKeys (dictInsert ps k v)).Nodup :=
        List.nodup_cons.mpr ⟨hnotin, ih hnd⟩
      simpa [dictKeys] using this

theorem dictLookup_isSome_iff_mem (d : List (Int × String)) (k : Int) :
    (dictLookup d k).isSome = true ↔ k ∈ dictKeys d := by
  induction d with
  | nil => simp [dictLookup, dictKeys]
  | cons p ps ih =>
    by_cases h : p.1 = k
    · simp [dictLookup, dictKeys, h]
    · simp [dictLookup, dictKeys, h, Ne.symm h, ih]

/-! Loop lemmas for `runDict`. -/

theorem runDict_ok_of_all_ok (f : α → Except PyError (Option (Int × String))) :
    ∀ l : List α, (∀ x ∈ l, ∃ o, f x = .ok o) →
      ∀ acc, ∃ m, runDict f acc l = .ok m := by
  intro l
  induction l with
  | nil => intro _ acc; exact ⟨acc, rfl⟩
  | cons x xs ih =>
    intro h acc
    obtain ⟨o, ho⟩ := h x (List.mem_cons_self x xs)
    have hrest : ∀ y ∈ xs, ∃ o, f y = .ok o :=
      fun y hy => h y (List.mem_cons_of_mem x hy)
    cases o with
    | none =>
      obtain ⟨m, hm⟩ := ih hrest acc
      exact ⟨m, by simp [runDict, ho, hm]⟩
    | some kv =>
      obtain ⟨m, hm⟩ := ih hrest (dictInsert acc kv.1 kv.2)
      exact ⟨m, by simp [runDict, ho, hm]⟩

theorem runDict_ok_lookup_isSome (f : α → Except PyError (Option (Int × String))) :
    ∀ (l : List α) (acc m), runDict f acc l = .ok m →
      ∀ k, (dictLookup m k).isSome = true ↔
        ((dictLookup acc k).isSome = true ∨ ∃ x ∈ l, contribKey f x = some k) := by
  intro l
  induction l with
  | nil =>
    intro acc m hm k
    have : acc = m := by simpa [runDict] using hm
    simp [this]
  | cons x xs ih =>
    intro acc m hm k
    cases hfx : f x with
    | error e => simp [runDict, hfx] at hm
    | ok o =>
      cases o with
      | none =>
        have hm2 : runDict f acc xs = .ok m := by simpa [runDict, hfx] using hm
        have := ih acc m hm2 k
        rw [this]
        simp [contribKey, hfx, List.mem_cons, or_assoc]
      | some kv =>
        have hm2 : runDict f (dictInsert acc kv.1 kv.2) xs = .ok m := by
          simpa [runDict, hfx] using hm
        have := ih (dictInsert acc kv.1 kv.2) m hm2 k
        rw [this, dictLookup_isSome_insert]
        simp only [contribKey, hfx, List.mem_cons]
        constructor
        · rintro (⟨h1 | h2⟩ | ⟨y, hy, hc⟩)
          · exact Or.inr ⟨x, Or.inl rfl, by simp [contribKey, hfx, h1]⟩
          · exact Or.inl h2
          · exact Or.inr ⟨y, Or.inr hy, hc⟩
        · rintro (h1 | ⟨y, hy | hy, hc⟩)
          · exact Or.inl (Or.inr h1)
          · subst hy
            simp only [contribKey, hfx, Option.some.injEq] at hc
            exact Or.inl (Or.inl hc.symm)
          · exact Or.inr ⟨y, hy, hc⟩

theorem runDict_ok_keys_nodup (f : α → Except PyError (Option (Int × String))) :
    ∀ (l : List α) (acc m), runDict f acc l = .ok m →
      (dictKeys acc).Nodup → (dictKeys m).Nodup := by
  intro l
  induction l with
  | nil =>
    intro acc m hm h
    have : acc = m := by simpa [runDict] using hm
    exact this ▸ h
  | cons x xs ih =>
    intro acc m hm h
    cases hfx : f x with
    | error e => simp [runDict, hfx] at hm
    | ok o =>
      cases o with
      | none =>
        exact ih acc m (by simpa [runDict, hfx] using hm) h
      | some kv =>
        exact ih (dictInsert acc kv.1 kv.2) m (by simpa [runDict, hfx] using hm)
          (dictKeys_nodup_insert acc kv.1 kv.2 h)

theorem runDict_ok_lookup_frame (f : α → Except PyError (Option (Int × String)))
    (k : Int) :
    ∀ (l : List α) (acc m), (∀ x ∈ l, contribKey f x ≠ some k) →
      runDict f acc l = .ok m → dictLookup m k = dictLookup acc k := by
  intro l
  induction l with
  | nil =>
    intro acc m _ hm
    have : acc = m := by simpa [runDict] using hm
    simp [this]
  | cons x xs ih =>
    intro acc m hno hm
    have hrest : ∀ y ∈ xs, contribKey f y ≠ some k :=
      fun y hy => hno y (List.mem_cons_of_mem x hy)
    cases hfx : f x with
    | error e => simp [runDict, hfx] at hm
    | ok o =>
      cases o with
      | none =>
        exact ih acc m hrest (by simpa [runDict, hfx] using hm)
      | some kv =>
        have hne : kv.1 ≠ k := by
          intro hkk
          exact hno x (List.mem_cons_self x xs) (by simp [contribKey, hfx, hkk])
        have := ih (dictInsert acc kv.1 kv.2) m hrest (by simpa [runDict, hfx] using hm)
        rw [this, dictLookup_insert_ne acc kv.1 kv.2 k (Ne.symm hne)]

theorem runDict_ok_lookup_value (f : α → Except PyError (Option (Int × String)))
    (k : Int) (v : String) :
    ∀ (l : List α) (acc m), runDict f acc l = .ok m →
      (∃ x ∈ l, f x = .ok (some (k, v))) →
      l.countP (fun y => contribKey f y == some k) = 1 →
      dictLookup m k = some v := by
  intro l
  induction l with
  | nil => intro acc m _ hex _; simp at hex
  | cons y ys ih =>
    intro acc m hm hex hcount
    cases hfy : f y with
    | error e => simp [runDict, hfy] at hm
    | ok o =>
      cases o with
      | none =>
        have hm2 : runDict f acc ys = .ok m := by simpa [runDict, hfy] using hm
        obtain ⟨x, hx, hfx⟩ := hex
        rcases List.mem_cons.mp hx with h1 | h2
        · rw [h1] at hfx; rw [hfy] at hfx; simp at hfx
        · have hcount2 : ys.countP (fun z => contribKey f z == some k) = 1 := by
            have : (contribKey f y == some k) = false := by
              simp [contribKey, hfy]
            simpa [List.countP_cons, this] using hcount
          exact ih acc m hm2 ⟨x, h2, hfx⟩ hcount2
      | some kv =>
        have hm2 : runDict f (dictInsert acc kv.1 kv.2) ys = .ok m := by
          simpa [runDict, hfy] using hm
        by_cases hk : kv.1 = k
        · have hqy : (contribKey f y == some k) = true := by
            simp [contribKey, hfy, hk]
          have hcount0 : ys.countP (fun z => contribKey f z == some k) = 0 := by
            have h0 := hcount
            rw [List.countP_cons] at h0
            rw [hqy] at h0
            simpa using h0
          have hnone : ∀ z ∈ ys, contribKey f z ≠ some k := by
            intro z hz hc
            have := List.countP_eq_zero.mp hcount0 z hz
            simp [hc] at this
          have hkv : kv = (k, v) := by
            obtain ⟨x, hx, hfx⟩ := hex
            rcases List.mem_cons.mp hx with h1 | h2
            · rw [h1, hfy] at hfx
              simpa using hfx
            · exfalso
              exact hnone x h2 (by simp [contribKey, hfx])
          rw [hkv] at hm2
          rw [runDict_ok_lookup_frame f k ys (dictInsert acc k v) m hnone hm2]
          exact dictLookup_insert_self acc k v
        · have hqy : (contribKey f y == some k) = false := by
            simp [contribKey, hfy, hk]
          have hcount2 : ys.countP (fun z => contribKey f z == some k) = 1 := by
            simpa [List.countP_cons, hqy] using hcount
          obtain ⟨x, hx, hfx⟩ := hex
          rcases List.mem_cons.mp hx with h1 | h2
          · exfalso
            rw [h1, hfy] at hfx
            have : kv = (k, v) := by simpa using hfx
            exact hk (by rw [this])
          · exact ih (dictInsert acc kv.1 kv.2) m hm2 ⟨x, h2, hfx⟩ hcount2

theorem runDict_not_ok_of_error (f : α → Except PyError (Option (Int × String))) :
    ∀ (l : List α) (acc), (∃ x ∈ l, ∃ e, f x = .error e) →
      ∀ m, runDict f acc l ≠ .ok m := by
  intro l
  induction l with
  | nil => intro acc hex m; simp at hex
  | cons y ys ih =>
    intro acc hex m hm
    cases hfy : f y with
    | error e => simp [runDict, hfy] at hm
    | ok o =>
      obtain ⟨x, hx, e, hfx⟩ := hex
      rcases List.mem_cons.mp hx with h1 | h2
      · rw [h1, hfy] at hfx; simp at hfx
      · cases o with
        | none =>
          exact ih acc ⟨x, h2, e, hfx⟩ m (by simpa [runDict, hfy] using hm)
        | some kv =>
          exact ih (dictInsert acc kv.1 kv.2) ⟨x, h2, e, hfx⟩ m
            (by simpa [runDict, hfy] using hm)

/-! Classifier bridge lemmas. -/

theorem classifyName_ok_cases (p : HNode × List HNode)
    (h : (match_outlet_name ((attrGet p.1 "name").getD "")).isSome = true →
      hasTrWithTd p.2 = true) :
    ∃ o, classifyName p = .ok o := by
  cases hmo : match_outlet_name ((attrGet p.1 "name").getD "") with
  | none => exact ⟨none, by simp [classifyName, hmo]⟩
  | some k =>
    have htr := h (by simp [hmo])
    unfold hasTrWithTd at htr
    cases hfind : p.2.find? (tagIs "tr") with
    | none => rw [hfind] at htr; simp at htr
    | some tr =>
      rw [hfind] at htr
      simp only [] at htr
      cases htd : find_all_tag tr "td" with
      | nil => simp [htd] at htr
      | cons td rest =>
        exact ⟨some (k, get_text_strip td), by simp [classifyName, hmo, hfind, htd]⟩

theorem contribKey_classifyName_iff (p : HNode × List HNode)
    (h : (match_outlet_name ((attrGet p.1 "name").getD "")).isSome = true →
      hasTrWithTd p.2 = true) (k : Int) :
    contribKey classifyName p = some k ↔
      match_outlet_name ((attrGet p.1 "name").getD "") = some k := by
  cases hmo : match_outlet_name ((attrGet p.1 "name").getD "") with
  | none => simp [contribKey, classifyName, hmo]
  | some k2 =>
    have htr := h (by simp [hmo])
    unfold hasTrWithTd at htr
    cases hfind : p.2.find? (tagIs "tr") with
    | none => rw [hfind] at htr; simp at htr
    | some tr =>
      rw [hfind] at htr
      simp only [] at htr
      cases htd : find_all_tag tr "td" with
      | nil => simp [htd] at htr
      | cons td rest =>
        simp [contribKey, classifyName, hmo, hfind, htd]

theorem classifyStatus_ok_cases (e : XElem)
    (hint : pyStartswith e.tag "outletStat" = true →
      (pyInt (removeStatStr e.tag)).isSome = true)
    (htext : pyStartswith e.tag "outletStat" = true → e.text.isSome = true) :
    ∃ o, classifyStatus e = .ok o := by
  cases hsw : pyStartswith e.tag "outletStat" with
  | false => exact ⟨none, by simp [classifyStatus, hsw]⟩
  | true =>
    cases hpi : pyInt (removeStatStr e.tag) with
    | none => rw [hpi] at hint; simp [hsw] at hint
    | some k =>
      cases htx : e.text with
      | none => rw [htx] at htext; simp [hsw] at htext
      | some t =>
        exact ⟨some (k, pyUpper (pyStrip t)), by simp [classifyStatus, hsw, hpi, htx]⟩

theorem contribKey_classifyStatus_iff (e : XElem)
    (hint : pyStartswith e.tag "outletStat" = true →
      (pyInt (removeStatStr e.tag)).isSome = true)
    (htext : pyStartswith e.tag "outletStat" = true → e.text.isSome = true)
    (k : Int) :
    contribKey classifyStatus e = some k ↔
      pyStartswith e.tag "outletStat" = true ∧
        pyInt (removeStatStr e.tag) = some k := by
  cases hsw : pyStartswith e.tag "outletStat" with
  | false => simp [contribKey, classifyStatus, hsw]
  | true =>
    cases hpi : pyInt (removeStatStr e.tag) with
    | none => rw [hpi] at hint; simp [hsw] at hint
    | some k2 =>
      cases htx : e.text with
      | none => rw [htx] at htext; simp [hsw] at htext
      | some t => simp [contribKey, classifyStatus, hsw, hpi, htx]

/-! Claim theorems. -/

/-- C1: for a non-numeric token, `resolve_outlet` matches the token
case-insensitively and exactly against every record name: no matching
record gives the unknown-name error naming the token, exactly one matching
record resolves to the number of that record, and several matching records give
the ambiguity error listing every matching number (never the first match,
and never a prefix match). -/
theorem resolve_outlet_name_resolution (arg : String)
    (table : List (Int × String × String)) (hd : pyIsdigit arg = false) :
    (table.filter (fun q => pyLower q.2.1 == pyLower arg) = [] →
        resolve_outlet arg table = .error (.unknownName arg)) ∧
    (∀ r, table.filter (fun q => pyLower q.2.1 == pyLower arg) = [r] →
        resolve_outlet arg table = .ok r.1) ∧
    (2 ≤ (table.filter (fun q => pyLower q.2.1 == pyLower arg)).length →
        resolve_outlet arg table = .error (.ambiguous arg
          ((table.filter (fun q => pyLower q.2.1 == pyLower arg)).map (fun q => q.1)))) := by
  refine ⟨?_, ?_, ?_⟩
  · intro h
    simp [resolve_outlet, hd, h]
  · intro r h
    simp [resolve_outlet, hd, h]
  · intro h
    rcases hfil : table.filter (fun q => pyLower q.2.1 == pyLower arg) with
      _ | ⟨a, _ | ⟨b, rest⟩⟩
    · rw [hfil] at h; simp at h
    · rw [hfil] at h; simp at h
    · rw [hfil]
      simp [resolve_outlet, hd, hfil]

/-- Witness for C1: a directory with exactly one record whose name matches
"Server" case-insensitively resolves to the number of that record. -/
theorem resolve_outlet_name_resolution_witness :
    resolve_outlet "Server" [((1 : Int), "server", "ON")] = .ok 1 :=
  (resolve_outlet_name_resolution "Server" [((1 : Int), "server", "ON")]
    (by decide)).2.1 ((1 : Int), "server", "ON") (by decide)

/-- C2: for a token made only of decimal digits, `resolve_outlet` parses it
as a number and succeeds exactly when some record carries that number,
failing with the unknown-number error otherwise; the outcome depends only on
the record numbers, never on the names (no fall-through to name
matching). -/
theorem resolve_outlet_numeric (arg : String) (table : List (Int × String × String))
    (hd : pyIsdigit arg = true) :
    ((∃ r ∈ table, r.1 = int_of_digits arg) →
        resolve_outlet arg table = .ok (int_of_digits arg)) ∧
    ((∀ r ∈ table, r.1 ≠ int_of_digits arg) →
        resolve_outlet arg table = .error (.unknownNumber (int_of_digits arg))) := by
  constructor
  · intro h
    have hany : table.any (fun r => r.1 == int_of_digits arg) = true := by
      rw [List.any_eq_true]
      obtain ⟨r, hr, he⟩ := h
      exact ⟨r, hr, by simp [he]⟩
    simp [resolve_outlet, hd, hany]
  · intro h
    have hany : table.any (fun r => r.1 == int_of_digits arg) = false := by
      rw [Bool.eq_false_iff]
      intro hc
      obtain ⟨r, hr, he⟩ := List.any_eq_true.mp hc
      exact h r hr (by simpa using he)
    simp [resolve_outlet, hd, hany]

/-- Witness for C2: outlet 2 exists, so the numeric token "2" resolves to 2,
even though a record is named "2". -/
theorem resolve_outlet_numeric_witness :
    resolve_outlet "2" [((2 : Int), "x", "ON"), ((7 : Int), "2", "OFF")] = .ok 2 :=
  (resolve_outlet_numeric "2" [((2 : Int), "x", "ON"), ((7 : Int), "2", "OFF")]
    (by decide)).1 ⟨((2 : Int), "x", "ON"), by decide⟩

/-- C7: the query string built by `set_outlet` is exactly
`outlet<N>=1&op=<code>&submit=Apply`, where the wire code is "0" for ON and
"1" for OFF (the inverted firmware mapping, preserved exactly). -/
theorem set_outlet_query_format (n : Int) (op : OutletOperation) :
    set_outlet_query n op =
      "outlet" ++ toString n ++ "=1&op=" ++
        (if op = OutletOperation.ON then "0" else "1") ++ "&submit=Apply" ∧
    OutletOperation.ON.value = "0" ∧ OutletOperation.OFF.value = "1" := by
  refine ⟨?_, rfl, rfl⟩
  cases op <;> rfl

/-- C8 (amended): `fetch` joins the base URL and the path with a single
slash after removing every leading slash from the path; in particular a
path with a leading slash and the same path without it give the same URL,
and a path with no leading slash is appended verbatim. -/
theorem fetch_url_join (b p : String) :
    fetch_url b ("/" ++ p) = fetch_url b p ∧
    (p.data.head? ≠ some '/' → fetch_url b p = b ++ "/" ++ p) := by
  constructor
  · have hdata : ("/" ++ p).data = '/' :: p.data := by
      rw [String.data_append]
      rfl
    show b ++ "/" ++ String.mk (("/" ++ p).data.dropWhile (fun c => c == '/')) = _
    rw [hdata]
    rfl
  · intro h
    obtain ⟨d⟩ := p
    cases d with
    | nil => rfl
    | cons c cs =>
      have hc : (c == '/') = false := by
        simp only [String.data] at h
        simp only [List.head?] at h
        simp only [ne_eq, Option.some.injEq] at h
        simp [h]
      show b ++ "/" ++ String.mk ((c :: cs).dropWhile (fun x => x == '/')) = _
      rw [List.dropWhile_cons_of_neg (by simp [hc])]

/-- Witness for C8: a path without a leading slash is joined verbatim. -/
theorem fetch_url_join_witness :
    fetch_url "http://host" "control_outlet.htm" =
      "http://host" ++ "/" ++ "control_outlet.htm" :=
  (fetch_url_join "http://host" "control_outlet.htm").2 (by decide)

/-- Counterexample for C8 as stated: for a path starting with two slashes,
the code removes both, whereas removing a single leading slash would leave a
doubled separator; the two URLs differ. -/
theorem fetch_url_single_strip_cex :
    fetch_url "http://host" "//status.xml" = "http://host/status.xml" ∧
    "http://host/status.xml" ≠ "http://host" ++ "/" ++ "/status.xml" := by
  exact ⟨rfl, by decide⟩

/-- C9: a well-formed status document whose `outletStat3` element is empty
makes `parse_status` fail (the `.text` of an empty element is `None` and
`.strip()` on it raises `AttributeError`); it does not produce a mapping
with an empty state string. -/
theorem parse_status_empty_element_fails :
    parse_status (.ok [XElem.mk "outletStat3" none]) = .error .attributeError := rfl

/-- C10: a checkbox named `outlet5` with no enclosing `tr` ancestor makes
`parse_names` fail (`find_parent("tr")` returns `None` and the subsequent
`find_all` raises `AttributeError`); the element is not skipped and no
partial mapping is returned. -/
theorem parse_names_no_row_fails :
    parse_names (HForest.cons
      (HNode.elem "input" [("type", "checkbox"), ("name", "outlet5")] HForest.nil)
      HForest.nil) = .error .attributeError := rfl

/-- C6 (amended): `parse_status` propagates the parse error of a document
that is not well-formed XML, and it fails — rather than skipping the
element — whenever the tag of some top-level element begins with `"outletStat"`
but the remainder after removing every occurrence of `"outletStat"` does
not parse as a Python integer. -/
theorem parse_status_failure (src : Except PyError (List XElem)) :
    (∀ e, src = .error e → parse_status src = .error e) ∧
    (∀ children, src = .ok children →
      (∃ e ∈ children, pyStartswith e.tag "outletStat" = true ∧
          pyInt (removeStatStr e.tag) = none) →
      ∀ m, parse_status src ≠ .ok m) := by
  constructor
  · intro e he
    rw [he]
    rfl
  · intro children hc hex m
    rw [hc]
    show runDict classifyStatus [] children ≠ .ok m
    obtain ⟨e, he, hsw, hpi⟩ := hex
    exact runDict_not_ok_of_error classifyStatus children []
      ⟨e, he, .valueError, by simp [classifyStatus, hsw, hpi]⟩ m

/-- Witness for C6: a document with the single element `outletStaty` (tag
remainder "y", not an integer) makes `parse_status` fail. -/
theorem parse_status_failure_witness :
    parse_status (.ok [XElem.mk "outletStaty" (some "on")]) ≠ .ok [] :=
  (parse_status_failure (.ok [XElem.mk "outletStaty" (some "on")])).2
    [XElem.mk "outletStaty" (some "on")] rfl
    ⟨XElem.mk "outletStaty" (some "on"), by simp, by decide, by decide⟩ []

/-- Counterexample for C6 as stated: the tag `outletStatoutletStat3` begins
with `outletStat` and its remainder after removing that prefix,
`outletStat3`, does not parse as an integer, so the claim requires a
failure; but the code removes every occurrence of the substring and
succeeds with the number 3. -/
theorem parse_status_prefix_remainder_cex :
    parse_status (.ok [XElem.mk "outletStatoutletStat3" (some "on")]) =
      .ok [((3 : Int), "ON")] ∧
    pyStartswith "outletStatoutletStat3" "outletStat" = true ∧
    pyInt (String.mk ("outletStatoutletStat3".data.drop 10)) = none :=
  ⟨rfl, by decide, by decide⟩

/-- Counterexample for C5 as stated: (i) on the tag
`outletStat1outletStat2` the code records the number 12, obtained by
removing every occurrence of `outletStat`, although stripping exactly the
leading prefix leaves `1outletStat2`, which is not a number at all; (ii) on
a well-formed document whose matching element has no text, the function
raises instead of returning a mapping; (iii) when two elements derive the
same number, the mapping does not hold the text of the first element. -/
theorem parse_status_exact_strip_cex :
    (parse_status (.ok [XElem.mk "outletStat1outletStat2" (some "on")]) =
        .ok [((12 : Int), "ON")] ∧
      pyInt (String.mk ("outletStat1outletStat2".data.drop 10)) = none) ∧
    parse_status (.ok [XElem.mk "outletStat1" none]) = .error .attributeError ∧
    (parse_status (.ok [XElem.mk "outletStat4" (some "on"),
        XElem.mk "outletStat4" (some "off")]) = .ok [((4 : Int), "OFF")] ∧
      pyUpper (pyStrip "on") ≠ "OFF") :=
  ⟨⟨rfl, by decide⟩, rfl, rfl, by decide⟩

/-- C3: for name and status mappings produced by the two parsers, the
directory built by `list_outlets` has its records in strictly ascending
number order, its numbers are exactly the keys of the name mapping (each
once), the name of every record is the entry of the name mapping for its number, a
number absent from the status mapping gets the state `"(unknown)"`, and a
number present in the status mapping gets that state — so numbers present
only in the status mapping are dropped. -/
theorem list_outlets_directory (doc : HForest) (xml : Except PyError (List XElem))
    (names stats : List (Int × String))
    (hn : parse_names doc = .ok names) (_hs : parse_status xml = .ok stats) :
    List.Sorted (· < ·) ((list_outlets names stats).map (fun r => r.1)) ∧
    ((list_outlets names stats).map (fun r => r.1)).Perm (dictKeys names) ∧
    ∀ r ∈ list_outlets names stats,
      dictLookup names r.1 = some r.2.1 ∧
      (dictLookup stats r.1 = none → r.2.2 = "(unknown)") ∧
      ∀ v, dictLookup stats r.1 = some v → r.2.2 = v := by
  have hnodup : (dictKeys names).Nodup :=
    runDict_ok_keys_nodup classifyName (checkboxes doc) [] names hn (by simp [dictKeys])
  have hkeys : (list_outlets names stats).map (fun r => r.1) =
      List.insertionSort (fun a b => a ≤ b) (dictKeys names) := by
    rw [list_outlets, List.map_map]
    have hcomp : ((fun r : Int × String × String => r.1) ∘
        fun n => (n, (dictLookup names n).getD "", (dictLookup stats n).getD "(unknown)")) =
        fun n => n := rfl
    rw [hcomp]
    simp
  have hperm : (List.insertionSort (fun a b => a ≤ b) (dictKeys names)).Perm
      (dictKeys names) :=
    List.perm_insertionSort _ _
  have hsorted : List.Sorted (fun a b => a ≤ b)
      (List.insertionSort (fun a b => a ≤ b) (dictKeys names)) :=
    List.sorted_insertionSort _ _
  have hnodup2 : (List.insertionSort (fun a b => a ≤ b) (dictKeys names)).Nodup :=
    hperm.symm.nodup hnodup
  refine ⟨?_, ?_, ?_⟩
  · rw [hkeys]
    exact List.Pairwise.imp (fun h => lt_of_le_of_ne h.1 h.2) (hsorted.and hnodup2)
  · rw [hkeys]
    exact hperm
  · intro r hr
    obtain ⟨n, hn2, hg⟩ := List.mem_map.mp hr
    have hnin : n ∈ dictKeys names := hperm.subset hn2
    have hsome : (dictLookup names n).isSome = true :=
      (dictLookup_isSome_iff_mem names n).mpr hnin
    obtain ⟨nm, hnm⟩ := Option.isSome_iff_exists.mp hsome
    rw [← hg]
    refine ⟨?_, ?_, ?_⟩
    · simp only []
      rw [hnm]
      simp
    · intro habs
      simp only [] at habs ⊢
      rw [habs]
      rfl
    · intro v hv
      simp only [] at hv ⊢
      rw [hv]
      rfl

/-- Witness for C3: a concrete page listing outlet 2 before outlet 1 and a
status document for outlet 1 only; the numbers of the directory are a
permutation of the keys of the name mapping. -/
theorem list_outlets_directory_witness :
    ((list_outlets [((2 : Int), "B"), ((1 : Int), "A")] [((1 : Int), "ON")]).map
        (fun r => r.1)).Perm (dictKeys [((2 : Int), "B"), ((1 : Int), "A")]) :=
  (list_outlets_directory namesDocC3 (.ok [XElem.mk "outletStat1" (some "on")])
    [((2 : Int), "B"), ((1 : Int), "A")] [((1 : Int), "ON")] rfl rfl).2.1

/-- C5 (amended): on a well-formed status document in which, for every
top-level element whose tag begins with `outletStat`, the remainder of the
tag after removing every occurrence of `outletStat` parses as an integer
and the element has text, `parse_status` returns a mapping whose keys are
exactly the numbers so derived (elements whose tag lacks the prefix
contribute no entry), and — when a number is derived by exactly one
element — that number is mapped to the text of the element, stripped and
upper-cased. -/
theorem parse_status_spec (children : List XElem)
    (hint : ∀ e ∈ children, pyStartswith e.tag "outletStat" = true →
      (pyInt (removeStatStr e.tag)).isSome = true)
    (htext : ∀ e ∈ children, pyStartswith e.tag "outletStat" = true →
      e.text.isSome = true) :
    ∃ m, parse_status (.ok children) = .ok m ∧
      (dictKeys m).Nodup ∧
      (∀ k, (dictLookup m k).isSome = true ↔
        ∃ e ∈ children, pyStartswith e.tag "outletStat" = true ∧
          pyInt (removeStatStr e.tag) = some k) ∧
      (∀ e ∈ children, ∀ k t,
        pyStartswith e.tag "outletStat" = true →
        pyInt (removeStatStr e.tag) = some k →
        e.text = some t →
        children.countP (fun e2 => pyStartswith e2.tag "outletStat" &&
          (pyInt (removeStatStr e2.tag) == some k)) = 1 →
        dictLookup m k = some (pyUpper (pyStrip t))) := by
  obtain ⟨m, hm⟩ := runDict_ok_of_all_ok classifyStatus children
    (fun e he => classifyStatus_ok_cases e (hint e he) (htext e he)) []
  refine ⟨m, hm, ?_, ?_, ?_⟩
  · exact runDict_ok_keys_nodup classifyStatus children [] m hm (by simp [dictKeys])
  · intro k
    rw [runDict_ok_lookup_isSome classifyStatus children [] m hm k]
    constructor
    · rintro (h0 | ⟨e, he, hc⟩)
      · simp [dictLookup] at h0
      · exact ⟨e, he,
          (contribKey_classifyStatus_iff e (hint e he) (htext e he) k).mp hc⟩
    · rintro ⟨e, he, hsw, hpi⟩
      exact Or.inr ⟨e, he,
        (contribKey_classifyStatus_iff e (hint e he) (htext e he) k).mpr ⟨hsw, hpi⟩⟩
  · intro e he k t hsw hpi htx hcount
    apply runDict_ok_lookup_value classifyStatus k (pyUpper (pyStrip t)) children [] m hm
    · exact ⟨e, he, by simp [classifyStatus, hsw, hpi, htx]⟩
    · rw [← hcount]
      apply List.countP_congr
      intro e2 he2
      by_cases hc : contribKey classifyStatus e2 = some k
      · obtain ⟨hsw2, hpi2⟩ :=
          (contribKey_classifyStatus_iff e2 (hint e2 he2) (htext e2 he2) k).mp hc
        simp [hc, hsw2, hpi2]
      · have hne : ¬(pyStartswith e2.tag "outletStat" = true ∧
            pyInt (removeStatStr e2.tag) = some k) := fun hx =>
          hc ((contribKey_classifyStatus_iff e2 (hint e2 he2) (htext e2 he2) k).mpr hx)
        cases hsw2 : pyStartswith e2.tag "outletStat" with
        | false => simp [hc, hsw2]
        | true =>
          have : pyInt (removeStatStr e2.tag) ≠ some k := fun hx => hne ⟨hsw2, hx⟩
          simp [hc, hsw2, this]

/-- Witness for C5: a concrete status document with one matching element
and one ignored element satisfies the hypotheses and yields a mapping. -/
theorem parse_status_spec_witness :
    ∃ m, parse_status (.ok [XElem.mk "outletStat6" (some " on "),
      XElem.mk "other" none]) = .ok m :=
  (parse_status_spec [XElem.mk "outletStat6" (some " on "), XElem.mk "other" none]
    (by decide) (by decide)).elim (fun m h => ⟨m, h.1⟩)

/-- C4: on a parsed page in which every checkbox whose `name` full-matches
`outlet<digits>` sits inside a `tr` that holds at least one `td`,
`parse_names` returns a mapping whose keys are exactly the numbers of the
matching checkboxes — one entry per distinct number, checkboxes with other
names (such as a select-all box) contribute nothing — and, when a number
belongs to exactly one matching checkbox, that number is mapped to the text
of the first `td` of the nearest enclosing `tr` of the checkbox, whitespace
stripped. -/
theorem parse_names_spec (doc : HForest)
    (h1 : ∀ p ∈ checkboxes doc,
      (match_outlet_name ((attrGet p.1 "name").getD "")).isSome = true →
        hasTrWithTd p.2 = true) :
    ∃ m, parse_names doc = .ok m ∧
      (dictKeys m).Nodup ∧
      (∀ k, (dictLookup m k).isSome = true ↔
        ∃ p ∈ checkboxes doc,
          match_outlet_name ((attrGet p.1 "name").getD "") = some k) ∧
      (∀ p ∈ checkboxes doc, ∀ k tr td rest,
        match_outlet_name ((attrGet p.1 "name").getD "") = some k →
        (checkboxes doc).countP
          (fun q => match_outlet_name ((attrGet q.1 "name").getD "") == some k) = 1 →
        p.2.find? (tagIs "tr") = some tr →
        find_all_tag tr "td" = td :: rest →
        dictLookup m k = some (get_text_strip td)) := by
  obtain ⟨m, hm⟩ := runDict_ok_of_all_ok classifyName (checkboxes doc)
    (fun p hp => classifyName_ok_cases p (h1 p hp)) []
  refine ⟨m, hm, ?_, ?_, ?_⟩
  · exact runDict_ok_keys_nodup classifyName (checkboxes doc) [] m hm (by simp [dictKeys])
  · intro k
    rw [runDict_ok_lookup_isSome classifyName (checkboxes doc) [] m hm k]
    constructor
    · rintro (h0 | ⟨p, hp, hc⟩)
      · simp [dictLookup] at h0
      · exact ⟨p, hp, (contribKey_classifyName_iff p (h1 p hp) k).mp hc⟩
    · rintro ⟨p, hp, hmo⟩
      exact Or.inr ⟨p, hp, (contribKey_classifyName_iff p (h1 p hp) k).mpr hmo⟩
  · intro p hp k tr td rest hmo hcount hfind htd
    apply runDict_ok_lookup_value classifyName k (get_text_strip td) (checkboxes doc) [] m hm
    · exact ⟨p, hp, by simp [classifyName, hmo, hfind, htd]⟩
    · rw [← hcount]
      apply List.countP_congr
      intro q hq
      by_cases hc : contribKey classifyName q = some k
      · have hmq := (contribKey_classifyName_iff q (h1 q hq) k).mp hc
        simp [hc, hmq]
      · have hne : match_outlet_name ((attrGet q.1 "name").getD "") ≠ some k :=
          fun hx => hc ((contribKey_classifyName_iff q (h1 q hq) k).mpr hx)
        simp [hc, hne]

/-- Witness for C4: a concrete page with one outlet row and a select-all
checkbox satisfies the hypothesis and yields a mapping. -/
theorem parse_names_spec_witness :
    ∃ m, parse_names namesDocC4 = .ok m :=
  (parse_names_spec namesDocC4 (by decide)).elim (fun m h => ⟨m, h.1⟩)

end Ippdu
